import Mathlib

/-!
Shallow embedding of the two TidyTuesday visualization scripts
(`src/2026/20260113/main.py` and `src/2026/20260120/main.py`).

The scripts load a CSV into a polars dataframe, compute group-by
aggregations, and render charts.  We embed a dataframe as a `List` of
records (rows in file order) and each polars expression chain as a Lean
function on such lists.  Polars' `group_by` does not promise an output
order and its `sort` does not promise stability by default
(`maintain_order=False`): the code only guarantees that the produced
aggregate is SOME permutation of the group rows that is descending-sorted
by the sort key.  `IsAggOutput` captures exactly that guarantee, and
properties about row order are settled against it.  The executable
aggregates (`density_df`, `reach_df`, `country_concentration`,
`top_photogs`) realize one admissible execution — groups in
first-occurrence order, stable sort, i.e. the `maintain_order=True`
semantics — and order-insensitive properties (membership, exclusion,
sums of counts, per-group values) are independent of that choice.
Numeric columns are embedded exactly: integer columns as `Int`, float
results (ratios, standard deviations) as `Rat`/`Real` instead of IEEE
doubles.
-/

namespace TidyTuesdays

/-! ### Generic list machinery shared by the pipelines -/

/-- Substring test on character lists: does `hay` contain `needle` as a
contiguous infix?  This is Python's `needle in hay` on strings. -/
def containsSub (needle : List Char) : List Char → Bool
  | [] => needle.isEmpty
  | c :: t => needle.isPrefixOf (c :: t) || containsSub needle t

/-- Distinct elements of a list, keeping the first occurrence of each:
the order in which the embedding's executable aggregates enumerate the
groups of a polars `group_by`.  Polars itself (default
`maintain_order=False`) leaves the group order unspecified; `IsAggOutput`
below quantifies over every admissible order, and only the executable
realization fixes this one. -/
def dedupFirst {α : Type _} [DecidableEq α] : List α → List α
  | [] => []
  | a :: l => a :: (dedupFirst l).filter (fun b => decide (b ≠ a))

/-- Number of distinct values in a list (polars `n_unique`). -/
def nUnique {α : Type _} [DecidableEq α] (l : List α) : Nat :=
  (dedupFirst l).length

/-- Insert into a descending-sorted list, placing the new element before
the first strictly smaller key and after all keys at least as large, so
that the resulting sort is stable. -/
def insertDescBy {α β : Type _} [LinearOrder β] (key : α → β) (a : α) :
    List α → List α
  | [] => [a]
  | b :: l => if key b ≤ key a then a :: b :: l else b :: insertDescBy key a l

/-- Stable sort in descending key order: the `maintain_order=True`
execution of polars `sort(..., descending=True)`.  The source calls
`sort` with the default `maintain_order=False`, which promises only a
descending-sorted permutation (see `IsAggOutput`); this function realizes
one admissible output of it. -/
def sortByDesc {α β : Type _} [LinearOrder β] (key : α → β) :
    List α → List α
  | [] => []
  | a :: l => insertDescBy key a (sortByDesc key l)

/-- The admissible outputs of
`group_by(...).agg(...).sort(key, descending=True)` as the source calls
it, i.e. with the default `maintain_order=False` on both `group_by` and
`sort`: any permutation of the canonical group rows `pre` that is
descending-sorted by `key`.  Polars specifies nothing further — neither
the enumeration order of the groups nor the relative order of rows with
equal keys. -/
def IsAggOutput {α β : Type _} [LinearOrder β] (key : α → β)
    (pre out : List α) : Prop :=
  List.Perm out pre ∧ out.Pairwise (fun x y => key y ≤ key x)

theorem mem_dedupFirst {α : Type _} [DecidableEq α] {a : α} :
    ∀ {l : List α}, a ∈ dedupFirst l ↔ a ∈ l := by
  intro l
  induction l with
  | nil => simp [dedupFirst]
  | cons b l ih =>
      by_cases hab : a = b
      · subst hab; simp [dedupFirst]
      · simp [dedupFirst, List.mem_filter, hab, ih]

theorem nodup_dedupFirst {α : Type _} [DecidableEq α] :
    ∀ (l : List α), (dedupFirst l).Nodup := by
  intro l
  induction l with
  | nil => simp [dedupFirst]
  | cons b l ih =>
      refine List.Nodup.cons ?_ (ih.filter _)
      intro hmem
      rcases List.mem_filter.mp hmem with ⟨_, hne⟩
      simp at hne

theorem perm_insertDescBy {α β : Type _} [LinearOrder β] (key : α → β)
    (a : α) : ∀ (l : List α), List.Perm (insertDescBy key a l) (a :: l) := by
  intro l
  induction l with
  | nil => simp [insertDescBy]
  | cons b l ih =>
      simp only [insertDescBy]
      by_cases h : key b ≤ key a
      · rw [if_pos h]
      · rw [if_neg h]
        exact (ih.cons b).trans (List.Perm.swap a b l)

theorem perm_sortByDesc {α β : Type _} [LinearOrder β] (key : α → β) :
    ∀ (l : List α), List.Perm (sortByDesc key l) l := by
  intro l
  induction l with
  | nil => simp [sortByDesc]
  | cons a l ih =>
      exact (perm_insertDescBy key a (sortByDesc key l)).trans (ih.cons a)

theorem mem_sortByDesc {α β : Type _} [LinearOrder β] {key : α → β}
    {a : α} {l : List α} : a ∈ sortByDesc key l ↔ a ∈ l :=
  (perm_sortByDesc key l).mem_iff

theorem pairwise_insertDescBy {α β : Type _} [LinearOrder β] {key : α → β}
    (a : α) : ∀ {l : List α},
    l.Pairwise (fun x y => key y ≤ key x) →
    (insertDescBy key a l).Pairwise (fun x y => key y ≤ key x) := by
  intro l
  induction l with
  | nil => intro _; simp [insertDescBy]
  | cons b l ih =>
      intro hp
      rcases List.pairwise_cons.mp hp with ⟨hb, hl⟩
      simp only [insertDescBy]
      by_cases h : key b ≤ key a
      · rw [if_pos h]
        refine List.pairwise_cons.mpr ⟨?_, hp⟩
        intro x hx
        rcases List.mem_cons.mp hx with rfl | hx
        · exact h
        · exact le_trans (hb x hx) h
      · rw [if_neg h]
        refine List.pairwise_cons.mpr ⟨?_, ih hl⟩
        intro x hx
        rcases List.mem_cons.mp ((perm_insertDescBy key a l).mem_iff.mp hx) with
          rfl | hx
        · exact le_of_lt (lt_of_not_le h)
        · exact hb x hx

theorem sorted_sortByDesc {α β : Type _} [LinearOrder β] (key : α → β) :
    ∀ (l : List α),
    (sortByDesc key l).Pairwise (fun x y => key y ≤ key x) := by
  intro l
  induction l with
  | nil => simp [sortByDesc]
  | cons a l ih => exact pairwise_insertDescBy a ih

theorem filter_insertDescBy {α β : Type _} [LinearOrder β] (key : α → β)
    (m : β) (a : α) : ∀ (l : List α),
    (insertDescBy key a l).filter (fun x => decide (key x = m)) =
      if key a = m then a :: l.filter (fun x => decide (key x = m))
      else l.filter (fun x => decide (key x = m)) := by
  intro l
  induction l with
  | nil =>
      by_cases h : key a = m <;> simp [insertDescBy, List.filter, h]
  | cons b l ih =>
      simp only [insertDescBy]
      by_cases hba : key b ≤ key a
      · rw [if_pos hba]
        by_cases ha : key a = m <;> simp [List.filter_cons, ha]
      · rw [if_neg hba]
        have hab : key a < key b := lt_of_not_le hba
        by_cases ha : key a = m
        · have hb : ¬ key b = m := by
            intro hb; rw [ha, hb] at hab; exact lt_irrefl m hab
          simp [List.filter_cons, hb, ih, ha]
        · simp [List.filter_cons, ih, ha]

/-- Stability of the descending sort: rows with any fixed key value keep
their relative (input) order. -/
theorem filter_sortByDesc {α β : Type _} [LinearOrder β] (key : α → β)
    (m : β) : ∀ (l : List α),
    (sortByDesc key l).filter (fun x => decide (key x = m)) =
      l.filter (fun x => decide (key x = m)) := by
  intro l
  induction l with
  | nil => simp [sortByDesc]
  | cons a l ih =>
      by_cases ha : key a = m <;>
        simp [sortByDesc, filter_insertDescBy, ha, List.filter_cons, ih]

/-- The executable stable sort is one admissible output of the source's
polars sort. -/
theorem isAggOutput_sortByDesc {α β : Type _} [LinearOrder β]
    (key : α → β) (pre : List α) :
    IsAggOutput key pre (sortByDesc key pre) :=
  ⟨perm_sortByDesc key pre, sorted_sortByDesc key pre⟩

/-- Any two admissible outputs over the same groups are permutations of
each other and carry the same descending sequence of key values; only
the order of key-tied rows can differ between them. -/
theorem agg_output_unique {α β : Type _} [LinearOrder β] (key : α → β)
    {pre out₁ out₂ : List α} (h₁ : IsAggOutput key pre out₁)
    (h₂ : IsAggOutput key pre out₂) :
    List.Perm out₁ out₂ ∧ out₁.map key = out₂.map key := by
  have hp : List.Perm out₁ out₂ := h₁.1.trans h₂.1.symm
  refine ⟨hp, ?_⟩
  haveI : IsAntisymm β (fun x y : β => y ≤ x) :=
    ⟨fun a b h1 h2 => le_antisymm h2 h1⟩
  exact @List.eq_of_perm_of_sorted β (fun x y : β => y ≤ x) _ _ _
    (hp.map key) (h₁.2.map key (fun a b h => h))
    (h₂.2.map key (fun a b h => h))

/-! ### Script `src/2026/20260120/main.py` — APOD astrophotographers -/

/-- The ordered keyword rules of `classify_subject`, one pair per
`if`/`elif` branch, in source order. -/
def classifyRules : List (List String × String) :=
  [ (["nebula", "nebulae"], "Nebulae"),
    (["galaxy", "galaxies", "andromeda", "m31", "m33", "m51", "m81", "m82"],
      "Galaxies"),
    (["milky way"], "Milky Way"),
    (["aurora", "northern light", "southern light"], "Auroras"),
    (["moon", "lunar"], "Moon"),
    (["eclipse"], "Eclipses"),
    (["comet"], "Comets"),
    (["sun", "solar", "sunspot"], "Sun"),
    (["mars", "jupiter", "saturn", "venus", "planet"], "Planets") ]

/-- Python's `title.lower()`, as a character list. -/
def lowerData (s : String) : List Char := s.data.map Char.toLower

/-- One branch condition: `any(x in title_lower for x in [...])`. -/
def matchesRule (tl : List Char) (r : List String × String) : Bool :=
  r.1.any (fun kw => containsSub kw.data tl)

/-- `classify_subject(title)`: first matching rule wins, otherwise
`"Other"`. -/
def classify_subject (title : String) : String :=
  match classifyRules.find? (matchesRule (lowerData title)) with
  | some r => r.2
  | none => "Other"

/-- The closed set of category labels `classify_subject` draws from. -/
def categoryLabels : List String :=
  ["Nebulae", "Galaxies", "Milky Way", "Auroras", "Moon", "Eclipses",
   "Comets", "Sun", "Planets", "Other"]

/-- One row of `apod.csv`: the columns the script reads.  `copyright` can
be null in the CSV, hence `Option`. -/
structure ApodRecord where
  title : String
  copyright : Option String
  date : String
deriving DecidableEq, Repr

/-- The boolean mask `~pl.col("copyright").is_in(["NA", ""])`, with
polars' Kleene logic: a null input stays null. -/
def copyrightMask (c : Option String) : Option Bool :=
  (c.map (fun s => ["NA", ""].contains s)).map not

/-- `df.filter(~pl.col("copyright").is_in(["NA", ""]))`: polars `filter`
keeps exactly the rows whose mask is `true`; null masks are dropped. -/
def keptRows (t : List ApodRecord) : List ApodRecord :=
  t.filter (fun r => copyrightMask r.copyright == some true)

/-- One output row of `group_by("copyright").agg(pl.len().alias("count"))`. -/
structure PhotogRow where
  copyright : Option String
  count : Nat
deriving DecidableEq, Repr

/-- `group_by("copyright").agg(pl.len().alias("count"))`: one row per
distinct copyright value, holding the size of its group. -/
def photogCounts (t : List ApodRecord) : List PhotogRow :=
  (dedupFirst (t.map (fun r => r.copyright))).map
    (fun c => ⟨c, (t.filter (fun r => r.copyright == c)).length⟩)

/-- `top_photogs`: filter out `"NA"`/`""`/null copyrights, count rows per
photographer, sort by count descending, keep the first 10. -/
def top_photogs (t : List ApodRecord) : List PhotogRow :=
  (sortByDesc (fun row => row.count) (photogCounts (keptRows t))).take 10

/-! ### Script `src/2026/20260113/main.py` — African languages -/

/-- One row of `africa.csv`: the columns the script reads.  The metric
column `native_speakers` can be null. -/
structure LangRecord where
  country : String
  language : String
  family : String
  native_speakers : Option Int
deriving DecidableEq, Repr

/-- The rows of one `family` group. -/
def familyRows (t : List LangRecord) (f : String) : List LangRecord :=
  t.filter (fun r => r.family == f)

/-- One output row of `density_df`. -/
structure DensityRow where
  family : String
  total_speakers : Int
  unique_languages_count : Nat
  speaker_density : Rat
deriving DecidableEq, Repr

/-- The `density_df` aggregations for one family:
`pl.col("native_speakers").sum()` skips nulls (empty sum is 0),
`pl.col("language").n_unique()` counts distinct languages, and
`speaker_density` is their quotient. -/
def densityRow (t : List LangRecord) (f : String) : DensityRow :=
  let total := (((familyRows t f).map (fun r => r.native_speakers)).filterMap id).sum
  let uniq := nUnique ((familyRows t f).map (fun r => r.language))
  ⟨f, total, uniq, (total : Rat) / (uniq : Rat)⟩

/-- `df.group_by("family").agg(...)` before the final sort. -/
def density_pre (t : List LangRecord) : List DensityRow :=
  (dedupFirst (t.map (fun r => r.family))).map (densityRow t)

/-- `density_df`: per-family speaker totals, distinct-language counts and
speaker density, sorted by `speaker_density` descending. -/
def density_df (t : List LangRecord) : List DensityRow :=
  sortByDesc (fun row => row.speaker_density) (density_pre t)

/-- One output row of `reach_df`. -/
structure ReachRow where
  language : String
  country_count : Nat
deriving DecidableEq, Repr

/-- `pl.col("country").n_unique()` over one language's group: the number
of distinct countries the language is recorded in. -/
def countriesOf (t : List LangRecord) (l : String) : Nat :=
  nUnique ((t.filter (fun r => r.language == l)).map (fun r => r.country))

/-- `df.group_by("language").agg(...).filter(pl.col("country_count") > 1)`
before the final sort. -/
def reach_pre (t : List LangRecord) : List ReachRow :=
  (((dedupFirst (t.map (fun r => r.language))).map
      (fun l => (⟨l, countriesOf t l⟩ : ReachRow)))).filter
    (fun row => decide (1 < row.country_count))

/-- `reach_df`: distinct-country counts per language, kept only when
greater than 1, sorted by `country_count` descending. -/
def reach_df (t : List LangRecord) : List ReachRow :=
  sortByDesc (fun row => row.country_count) (reach_pre t)

/-- The non-null `native_speakers` values of one country's group: the
samples polars aggregations actually use (nulls are skipped). -/
def speakersOf (t : List LangRecord) (c : String) : List Int :=
  ((t.filter (fun r => r.country == c)).map
    (fun r => r.native_speakers)).filterMap id

/-- Sample standard deviation (`ddof = 1`) as polars `Expr.std` computes
it: `none` when fewer than two samples remain after dropping nulls,
otherwise the square root of the sum of squared deviations from the mean
divided by `n - 1`. -/
noncomputable def sampleStd (xs : List Int) : Option Real :=
  if xs.length < 2 then none
  else
    some (Real.sqrt
      (((xs.map (fun x =>
          ((x : Real) - (xs.sum : Real) / (xs.length : Real)) ^ 2)).sum)
        / ((xs.length : Real) - 1)))

/-- One output row of `country_concentration`.  The script names the
standard-deviation column `speaker_variance`. -/
structure ConcRow where
  country : String
  lang_count : Nat
  speaker_variance : Real

/-- The `country_concentration` aggregations for one country:
`pl.col("language").count()` counts the (non-null) language entries, and
`pl.col("native_speakers").std().fill_null(0)` is the sample standard
deviation of the non-null speaker numbers, with a null result (fewer than
two samples) replaced by 0. -/
noncomputable def concRow (t : List LangRecord) (c : String) : ConcRow :=
  ⟨c, (t.filter (fun r => r.country == c)).length,
    (sampleStd (speakersOf t c)).getD 0⟩

/-- `df.group_by("country").agg(...)` before the final sort. -/
noncomputable def concentration_pre (t : List LangRecord) : List ConcRow :=
  (dedupFirst (t.map (fun r => r.country))).map (concRow t)

/-- `country_concentration`: per-country language counts and
null-coerced speaker standard deviations, sorted by `lang_count`
descending. -/
noncomputable def country_concentration (t : List LangRecord) : List ConcRow :=
  sortByDesc (fun row => row.lang_count) (concentration_pre t)

/-- A four-row table in which both languages are recorded in exactly two
countries, so the two rows of the cross-border-reach aggregate tie on
`country_count`. -/
def tieTable : List LangRecord :=
  [⟨"Kenya", "LangA", "FamF", some 1⟩,
   ⟨"Uganda", "LangA", "FamF", some 2⟩,
   ⟨"Kenya", "LangB", "FamF", some 3⟩,
   ⟨"Uganda", "LangB", "FamF", some 4⟩]

/-! ### Shared lemmas: sums of per-group counts -/

theorem sum_map_add {κ : Type _} (f g : κ → Nat) :
    ∀ (ks : List κ),
    (ks.map (fun k => f k + g k)).sum = (ks.map f).sum + (ks.map g).sum := by
  intro ks
  induction ks with
  | nil => simp
  | cons k ks ih => simp [List.map_cons, List.sum_cons, ih]; omega

theorem sum_map_indicator {κ : Type _} [DecidableEq κ] (a : κ) :
    ∀ (ks : List κ), ks.Nodup →
    (ks.map (fun k => if a = k then 1 else 0)).sum =
      if a ∈ ks then 1 else 0 := by
  intro ks
  induction ks with
  | nil => simp
  | cons k ks ih =>
      intro hnd
      rcases List.nodup_cons.mp hnd with ⟨hk, hnd'⟩
      by_cases hak : a = k
      · subst hak
        simp [List.map_cons, List.sum_cons, ih hnd', hk]
      · simp [List.map_cons, List.sum_cons, ih hnd', hak]

theorem sum_group_lengths_of_nodup {α κ : Type _} [BEq κ] [LawfulBEq κ]
    [DecidableEq κ] (key : α → κ) (ks : List κ) (hnd : ks.Nodup) :
    ∀ (t : List α), (∀ r ∈ t, key r ∈ ks) →
    (ks.map (fun k => (t.filter (fun r => key r == k)).length)).sum =
      t.length := by
  intro t
  induction t with
  | nil => intro _; simp
  | cons r t ih =>
      intro hmem
      have hr : key r ∈ ks := hmem r (List.mem_cons_self r t)
      have hstep : ∀ k : κ,
          ((r :: t).filter (fun x => key x == k)).length =
            (t.filter (fun x => key x == k)).length +
              (if key r = k then 1 else 0) := by
        intro k
        by_cases h : key r = k <;> simp [List.filter_cons, h]
      calc (ks.map (fun k =>
              ((r :: t).filter (fun x => key x == k)).length)).sum
          = (ks.map (fun k => (t.filter (fun x => key x == k)).length +
              (if key r = k then 1 else 0))).sum := by
            exact congrArg List.sum (List.map_congr_left (fun k _ => hstep k))
        _ = (ks.map (fun k => (t.filter (fun x => key x == k)).length)).sum +
              (ks.map (fun k => if key r = k then 1 else 0)).sum :=
            sum_map_add _ _ ks
        _ = t.length + 1 := by
            rw [ih (fun x hx => hmem x (List.mem_cons_of_mem r hx)),
              sum_map_indicator (key r) ks hnd, if_pos hr]
        _ = (r :: t).length := by simp

/-- Per-group sizes of the deterministic grouping sum to the table size. -/
theorem sum_group_lengths {α κ : Type _} [BEq κ] [LawfulBEq κ]
    [DecidableEq κ] (key : α → κ) (t : List α) :
    ((dedupFirst (t.map key)).map
      (fun k => (t.filter (fun r => key r == k)).length)).sum = t.length :=
  sum_group_lengths_of_nodup key _ (nodup_dedupFirst _) t
    (fun _ hr => mem_dedupFirst.mpr (List.mem_map_of_mem key hr))

/-- A rule none of whose keywords occurs in the text does not match. -/
theorem matchesRule_eq_false {tl : List Char} {kws : List String}
    (cat : String) (h : ∀ kw ∈ kws, containsSub kw.data tl = false) :
    matchesRule tl (kws, cat) = false := by
  simp only [matchesRule]
  exact List.any_eq_false.mpr (fun kw hk => by simp [h kw hk])

/-- C1: the classifier maps the spec's test inputs to the stated
categories: "NGC 1976 Orion Nebula" to Nebulae, "Total Solar Eclipse over
Chile" to Eclipses, and "Aurora over Norway" to Auroras; the Eclipses rule
is evaluated before the Sun rule, so "Solar Eclipse" also yields Eclipses
despite containing "solar". -/
theorem c1_classifier_test_vectors :
    classify_subject "NGC 1976 Orion Nebula" = "Nebulae" ∧
    classify_subject "Total Solar Eclipse over Chile" = "Eclipses" ∧
    classify_subject "Solar Eclipse" = "Eclipses" ∧
    classify_subject "Aurora over Norway" = "Auroras" := by
  refine ⟨?_, ?_, ?_, ?_⟩ <;> decide

/-- C8: `classify_subject` is a pure total function: every input is
assigned exactly one label from the fixed closed set
{Nebulae, Galaxies, Milky Way, Auroras, Moon, Eclipses, Comets, Sun,
Planets, Other}, and an input in which no keyword of any rule occurs
(case-insensitively) is assigned "Other". -/
theorem c8_classifier_total_closed_set (title : String) :
    classify_subject title ∈ categoryLabels ∧
      ((∀ r ∈ classifyRules, matchesRule (lowerData title) r = false) →
        classify_subject title = "Other") := by
  constructor
  · unfold classify_subject
    cases hfind : classifyRules.find? (matchesRule (lowerData title)) with
    | none => decide
    | some r =>
        have hr : r ∈ classifyRules := List.mem_of_find?_eq_some hfind
        have hall : ∀ r ∈ classifyRules, r.2 ∈ categoryLabels := by decide
        exact hall r hr
  · intro h
    unfold classify_subject
    have hnone : classifyRules.find? (matchesRule (lowerData title)) = none :=
      List.find?_eq_none.mpr (fun x hx => by simp [h x hx])
    rw [hnone]

/-- Witness for C8 at the title "Pluto", which matches no rule. -/
theorem c8_classifier_total_closed_set_witness :
    classify_subject "Pluto" ∈ categoryLabels ∧
      classify_subject "Pluto" = "Other" :=
  ⟨(c8_classifier_total_closed_set "Pluto").1,
   (c8_classifier_total_closed_set "Pluto").2 (by decide)⟩

/-- C10: the Moon rule precedes the Eclipses rule: a title whose
lowercase form contains "moon" or "lunar" and none of the keywords of the
earlier Nebulae, Galaxies, Milky Way and Auroras rules is classified
"Moon", even if it also contains "eclipse". -/
theorem c10_moon_rule_precedes_eclipse (title : String)
    (hmoon : containsSub "moon".data (lowerData title) = true ∨
      containsSub "lunar".data (lowerData title) = true)
    (h1 : ∀ kw ∈ ["nebula", "nebulae"],
      containsSub kw.data (lowerData title) = false)
    (h2 : ∀ kw ∈ ["galaxy", "galaxies", "andromeda", "m31", "m33", "m51",
        "m81", "m82"], containsSub kw.data (lowerData title) = false)
    (h3 : ∀ kw ∈ ["milky way"],
      containsSub kw.data (lowerData title) = false)
    (h4 : ∀ kw ∈ ["aurora", "northern light", "southern light"],
      containsSub kw.data (lowerData title) = false) :
    classify_subject title = "Moon" := by
  have hm : matchesRule (lowerData title) (["moon", "lunar"], "Moon") = true := by
    simp only [matchesRule, List.any_eq_true]
    rcases hmoon with h | h
    · exact ⟨"moon", by simp, h⟩
    · exact ⟨"lunar", by simp, h⟩
  unfold classify_subject classifyRules
  rw [List.find?_cons_of_neg _ (by simp [matchesRule_eq_false _ h1]),
    List.find?_cons_of_neg _ (by simp [matchesRule_eq_false _ h2]),
    List.find?_cons_of_neg _ (by simp [matchesRule_eq_false _ h3]),
    List.find?_cons_of_neg _ (by simp [matchesRule_eq_false _ h4]),
    List.find?_cons_of_pos _ hm]

/-- Witness for C10 at the title "Lunar Eclipse". -/
theorem c10_moon_rule_precedes_eclipse_witness :
    classify_subject "Lunar Eclipse" = "Moon" :=
  c10_moon_rule_precedes_eclipse "Lunar Eclipse" (Or.inr (by decide))
    (by decide) (by decide) (by decide) (by decide)

/-- C9: a row whose copyright is the string "NA", the empty string, or
null contributes nothing to the photographer counts: deleting such a row
from the table leaves `top_photogs` unchanged wherever the row stood. -/
theorem c9_bad_copyright_excluded (t₁ t₂ : List ApodRecord) (r : ApodRecord)
    (hbad : r.copyright = some "NA" ∨ r.copyright = some "" ∨
      r.copyright = none) :
    top_photogs (t₁ ++ r :: t₂) = top_photogs (t₁ ++ t₂) := by
  have hkeep : (copyrightMask r.copyright == some true) = false := by
    rcases hbad with h | h | h <;> rw [h] <;> rfl
  have hk : keptRows (t₁ ++ r :: t₂) = keptRows (t₁ ++ t₂) := by
    simp [keptRows, List.filter_append, List.filter_cons, hkeep]
  simp only [top_photogs, hk]

/-- Witness for C9: a null-, an "NA"- and an empty-copyright row each
vanish from a small concrete table. -/
theorem c9_bad_copyright_excluded_witness :
    top_photogs
      [⟨"A Nebula", some "NA", "2026-01-20"⟩,
       ⟨"A Comet", some "Jane Roe", "2026-01-21"⟩] =
      top_photogs [⟨"A Comet", some "Jane Roe", "2026-01-21"⟩] :=
  c9_bad_copyright_excluded [] [⟨"A Comet", some "Jane Roe", "2026-01-21"⟩]
    ⟨"A Nebula", some "NA", "2026-01-20"⟩ (Or.inl rfl)

/-- C2: the cross-border-reach aggregate groups by language and counts
distinct countries: a language of the table recorded in exactly 3
distinct countries appears in `reach_df` with `country_count = 3`, a
language recorded in a single country is excluded entirely, every output
row has `country_count > 1`, and the output is sorted descending by
`country_count`. -/
theorem c2_cross_border_reach (t : List LangRecord) (l : String) :
    (l ∈ t.map (fun r => r.language) → countriesOf t l = 3 →
      (⟨l, 3⟩ : ReachRow) ∈ reach_df t) ∧
    (countriesOf t l = 1 → ∀ n, (⟨l, n⟩ : ReachRow) ∉ reach_df t) ∧
    (∀ row ∈ reach_df t, 1 < row.country_count) ∧
    (reach_df t).Pairwise (fun x y => y.country_count ≤ x.country_count) := by
  refine ⟨?_, ?_, ?_, sorted_sortByDesc _ _⟩
  · intro hl h3
    have hmap : (⟨l, countriesOf t l⟩ : ReachRow) ∈
        (dedupFirst (t.map (fun r => r.language))).map
          (fun l => (⟨l, countriesOf t l⟩ : ReachRow)) :=
      List.mem_map_of_mem _ (mem_dedupFirst.mpr hl)
    rw [h3] at hmap
    exact mem_sortByDesc.mpr (List.mem_filter.mpr ⟨hmap, rfl⟩)
  · intro h1 n hn
    rcases List.mem_filter.mp (mem_sortByDesc.mp hn) with ⟨hmapmem, hgt⟩
    rcases List.mem_map.mp hmapmem with ⟨l', _, heq⟩
    rw [ReachRow.mk.injEq] at heq
    rcases heq with ⟨rfl, hcnt⟩
    rw [h1] at hcnt
    rw [← hcnt] at hgt
    simp at hgt
  · intro row hrow
    rcases List.mem_filter.mp (mem_sortByDesc.mp hrow) with ⟨_, hgt⟩
    simpa using hgt

/-- Witness for C2: the concrete table below has Swahili in 3 distinct
countries and Zulu in 1. -/
theorem c2_cross_border_reach_witness :
    ((⟨"Swahili", 3⟩ : ReachRow) ∈ reach_df
      [⟨"Kenya", "Swahili", "Niger-Congo", some 10⟩,
       ⟨"Tanzania", "Swahili", "Niger-Congo", some 20⟩,
       ⟨"Uganda", "Swahili", "Niger-Congo", some 5⟩,
       ⟨"South Africa", "Zulu", "Niger-Congo", some 12⟩]) ∧
    (∀ n, (⟨"Zulu", n⟩ : ReachRow) ∉ reach_df
      [⟨"Kenya", "Swahili", "Niger-Congo", some 10⟩,
       ⟨"Tanzania", "Swahili", "Niger-Congo", some 20⟩,
       ⟨"Uganda", "Swahili", "Niger-Congo", some 5⟩,
       ⟨"South Africa", "Zulu", "Niger-Congo", some 12⟩]) :=
  ⟨((c2_cross_border_reach _ "Swahili").1 (by decide) (by decide)),
   ((c2_cross_border_reach _ "Zulu").2.1 (by decide))⟩

/-- C3: for every family present in the table, the speaker-density
aggregate contains a row for that family whose `speaker_density` is the
sum of the non-null `native_speakers` of the family's rows divided by the
number of distinct languages in the family. -/
theorem c3_speaker_density (t : List LangRecord) (f : String)
    (hf : f ∈ t.map (fun r => r.family)) :
    ∃ row ∈ density_df t, row.family = f ∧
      row.total_speakers =
        (((t.filter (fun r => r.family == f)).map
          (fun r => r.native_speakers)).filterMap id).sum ∧
      row.unique_languages_count =
        nUnique ((t.filter (fun r => r.family == f)).map
          (fun r => r.language)) ∧
      row.speaker_density =
        (((((t.filter (fun r => r.family == f)).map
          (fun r => r.native_speakers)).filterMap id).sum : Int) : Rat) /
          ((nUnique ((t.filter (fun r => r.family == f)).map
            (fun r => r.language)) : Nat) : Rat) :=
  ⟨densityRow t f,
    mem_sortByDesc.mpr (List.mem_map_of_mem _ (mem_dedupFirst.mpr hf)),
    rfl, rfl, rfl, rfl⟩

/-- A concrete two-family table for exercising the density aggregate. -/
def c3Table : List LangRecord :=
  [⟨"Kenya", "Swahili", "Niger-Congo", some 10⟩,
   ⟨"Tanzania", "Swahili", "Niger-Congo", some 20⟩,
   ⟨"Chad", "Sara", "Nilo-Saharan", some 4⟩]

/-- Witness for C3 on a concrete two-family table. -/
theorem c3_speaker_density_witness :
    ∃ row ∈ density_df c3Table, row.family = "Niger-Congo" ∧
      row.total_speakers =
        (((c3Table.filter (fun r => r.family == "Niger-Congo")).map
          (fun r => r.native_speakers)).filterMap id).sum ∧
      row.unique_languages_count =
        nUnique ((c3Table.filter (fun r => r.family == "Niger-Congo")).map
          (fun r => r.language)) ∧
      row.speaker_density =
        ((((c3Table.filter (fun r => r.family == "Niger-Congo")).map
          (fun r => r.native_speakers)).filterMap id).sum : Int) /
          ((nUnique ((c3Table.filter (fun r => r.family == "Niger-Congo")).map
            (fun r => r.language)) : Nat) : Rat) :=
  c3_speaker_density c3Table "Niger-Congo" (by decide)

/-- C4: in the per-country aggregate the standard deviation is computed
over the non-null `native_speakers` only, and a null standard deviation
(fewer than two non-null samples in the group) is coerced to exactly 0 in
the `speaker_variance` column. -/
theorem c4_variance_null_to_zero (t : List LangRecord) (c : String)
    (hc : c ∈ t.map (fun r => r.country))
    (hfew : (speakersOf t c).length < 2) :
    ∃ row ∈ country_concentration t, row.country = c ∧
      row.speaker_variance = 0 := by
  refine ⟨concRow t c,
    mem_sortByDesc.mpr (List.mem_map_of_mem _ (mem_dedupFirst.mpr hc)),
    rfl, ?_⟩
  show (sampleStd (speakersOf t c)).getD 0 = 0
  rw [sampleStd, if_pos hfew]
  rfl

/-- Witness for C4: a country with two records but a single non-null
speaker number (the null is excluded, so the deviation is null and
becomes 0). -/
theorem c4_variance_null_to_zero_witness :
    ∃ row ∈ country_concentration
      [⟨"Chad", "Sara", "Nilo-Saharan", some 5⟩,
       ⟨"Chad", "Daza", "Nilo-Saharan", none⟩],
      row.country = "Chad" ∧ row.speaker_variance = 0 :=
  c4_variance_null_to_zero
    [⟨"Chad", "Sara", "Nilo-Saharan", some 5⟩,
     ⟨"Chad", "Daza", "Nilo-Saharan", none⟩] "Chad" (by decide) (by decide)

/-- Counterexample to C5 as stated: on `tieTable` the cross-border-reach
rows for LangA and LangB tie at `country_count = 2`, and the admissible
output listing LangB first (polars guarantees only a descending-sorted
permutation, `maintain_order` defaults to `False`) does not keep the ties
in stable input order. -/
theorem c5_counterexample :
    ¬ (∀ out : List ReachRow,
        IsAggOutput (fun row => row.country_count) (reach_pre tieTable)
          out →
        ∀ m : Nat,
          out.filter (fun row => decide (row.country_count = m)) =
            (reach_pre tieTable).filter
              (fun row => decide (row.country_count = m))) := by
  intro h
  have h2 := h [⟨"LangB", 2⟩, ⟨"LangA", 2⟩] ⟨by decide, by decide⟩ 2
  exact absurd h2 (by decide)

/-- C5 (amended): every produced aggregate is sorted descending by its
primary metric (`speaker_density`, `country_count`, `lang_count`, photo
`count`); the relative order of rows with equal primary metric is left
unspecified by the code (polars `group_by`/`sort` default to
`maintain_order=False`).  Ties appear in stable input order under the
`maintain_order=True` execution, which the executable aggregates realize:
each is an admissible, descending-sorted permutation of its pre-sort
group rows, and filtering it to any metric value gives exactly the
pre-sort rows with that value, in order.  For the photographers the
stability statement is about the sorted aggregate from which `top_photogs`
takes its first 10 rows. -/
theorem c5_sorted_descending_stable_refined (t : List LangRecord)
    (u : List ApodRecord) :
    IsAggOutput (fun row => row.speaker_density) (density_pre t)
      (density_df t) ∧
    IsAggOutput (fun row => row.country_count) (reach_pre t)
      (reach_df t) ∧
    IsAggOutput (fun row => row.lang_count) (concentration_pre t)
      (country_concentration t) ∧
    IsAggOutput (fun row => row.count) (photogCounts (keptRows u))
      (sortByDesc (fun row => row.count) (photogCounts (keptRows u))) ∧
    ((density_df t).Pairwise
        (fun x y => y.speaker_density ≤ x.speaker_density) ∧
      ∀ m : Rat,
        (density_df t).filter (fun row => decide (row.speaker_density = m)) =
          (density_pre t).filter
            (fun row => decide (row.speaker_density = m))) ∧
    ((reach_df t).Pairwise (fun x y => y.country_count ≤ x.country_count) ∧
      ∀ m : Nat,
        (reach_df t).filter (fun row => decide (row.country_count = m)) =
          (reach_pre t).filter (fun row => decide (row.country_count = m))) ∧
    ((country_concentration t).Pairwise
        (fun x y => y.lang_count ≤ x.lang_count) ∧
      ∀ m : Nat,
        (country_concentration t).filter
            (fun row => decide (row.lang_count = m)) =
          (concentration_pre t).filter
            (fun row => decide (row.lang_count = m))) ∧
    ((top_photogs u).Pairwise (fun x y => y.count ≤ x.count) ∧
      ∀ m : Nat,
        (sortByDesc (fun row => row.count)
            (photogCounts (keptRows u))).filter
            (fun row => decide (row.count = m)) =
          (photogCounts (keptRows u)).filter
            (fun row => decide (row.count = m))) :=
  ⟨isAggOutput_sortByDesc _ _, isAggOutput_sortByDesc _ _,
   isAggOutput_sortByDesc _ _, isAggOutput_sortByDesc _ _,
   ⟨sorted_sortByDesc _ _, fun m => filter_sortByDesc _ m _⟩,
   ⟨sorted_sortByDesc _ _, fun m => filter_sortByDesc _ m _⟩,
   ⟨sorted_sortByDesc _ _, fun m => filter_sortByDesc _ m _⟩,
   ⟨List.Pairwise.sublist (List.take_sublist _ _) (sorted_sortByDesc _ _),
    fun m => filter_sortByDesc _ m _⟩⟩

/-- Counterexample to C6 as stated: on `tieTable` the two tied
cross-border-reach rows admit two distinct outputs, both within what the
code guarantees (polars `group_by`/`sort` default to
`maintain_order=False`), so two runs of the same aggregation on the same
table are not guaranteed to produce identical row order. -/
theorem c6_counterexample :
    ¬ (∀ out₁ out₂ : List ReachRow,
        IsAggOutput (fun row => row.country_count) (reach_pre tieTable)
          out₁ →
        IsAggOutput (fun row => row.country_count) (reach_pre tieTable)
          out₂ →
        out₁ = out₂) := by
  intro h
  have h2 := h [⟨"LangA", 2⟩, ⟨"LangB", 2⟩] [⟨"LangB", 2⟩, ⟨"LangA", 2⟩]
    ⟨by decide, by decide⟩ ⟨by decide, by decide⟩
  exact absurd h2 (by decide)

/-- C6 (amended): aggregation has no hidden mutable state, but the code
fixes row order only up to ties: any two runs of the same aggregate on
the same input table yield output tables that are permutations of each
other carrying the identical descending sequence of primary-metric
values, differing at most in the order of metric-tied rows; identical
row order holds under the `maintain_order=True` execution realized by
the executable aggregates. -/
theorem c6_deterministic_up_to_tie_order (t : List LangRecord)
    (u : List ApodRecord) :
    (∀ out₁ out₂ : List DensityRow,
      IsAggOutput (fun row => row.speaker_density) (density_pre t) out₁ →
      IsAggOutput (fun row => row.speaker_density) (density_pre t) out₂ →
      List.Perm out₁ out₂ ∧
        out₁.map (fun row => row.speaker_density) =
          out₂.map (fun row => row.speaker_density)) ∧
    (∀ out₁ out₂ : List ReachRow,
      IsAggOutput (fun row => row.country_count) (reach_pre t) out₁ →
      IsAggOutput (fun row => row.country_count) (reach_pre t) out₂ →
      List.Perm out₁ out₂ ∧
        out₁.map (fun row => row.country_count) =
          out₂.map (fun row => row.country_count)) ∧
    (∀ out₁ out₂ : List ConcRow,
      IsAggOutput (fun row => row.lang_count) (concentration_pre t) out₁ →
      IsAggOutput (fun row => row.lang_count) (concentration_pre t) out₂ →
      List.Perm out₁ out₂ ∧
        out₁.map (fun row => row.lang_count) =
          out₂.map (fun row => row.lang_count)) ∧
    (∀ out₁ out₂ : List PhotogRow,
      IsAggOutput (fun row => row.count) (photogCounts (keptRows u)) out₁ →
      IsAggOutput (fun row => row.count) (photogCounts (keptRows u)) out₂ →
      List.Perm out₁ out₂ ∧
        out₁.map (fun row => row.count) = out₂.map (fun row => row.count)) :=
  ⟨fun _ _ h₁ h₂ => agg_output_unique _ h₁ h₂,
   fun _ _ h₁ h₂ => agg_output_unique _ h₁ h₂,
   fun _ _ h₁ h₂ => agg_output_unique _ h₁ h₂,
   fun _ _ h₁ h₂ => agg_output_unique _ h₁ h₂⟩

/-- Witness for C6 (amended) on `tieTable`: the two distinct admissible
tie orders of the reach aggregate are permutations of each other with the
same `country_count` sequence. -/
theorem c6_deterministic_up_to_tie_order_witness :
    List.Perm [(⟨"LangA", 2⟩ : ReachRow), ⟨"LangB", 2⟩]
        [(⟨"LangB", 2⟩ : ReachRow), ⟨"LangA", 2⟩] ∧
      [(⟨"LangA", 2⟩ : ReachRow), ⟨"LangB", 2⟩].map
          (fun row => row.country_count) =
        [(⟨"LangB", 2⟩ : ReachRow), ⟨"LangA", 2⟩].map
          (fun row => row.country_count) :=
  (c6_deterministic_up_to_tie_order tieTable []).2.1
    [⟨"LangA", 2⟩, ⟨"LangB", 2⟩] [⟨"LangB", 2⟩, ⟨"LangA", 2⟩]
    ⟨by decide, by decide⟩ ⟨by decide, by decide⟩

/-- Counterexample to C7 as stated: a one-row table whose only copyright
is the sentinel "NA"; the row is filtered out, so the per-photographer
counts of `top_photogs` sum to 0, not to the source row count 1. -/
theorem c7_counterexample :
    ¬ ((top_photogs
        [⟨"Some Title", some "NA", "2026-01-20"⟩]).map
          (fun row => row.count)).sum =
      ([⟨"Some Title", some "NA", "2026-01-20"⟩] : List ApodRecord).length := by
  decide

/-- C7 (amended): summing `lang_count` over the per-country aggregate
gives the row count of the source table; the per-photographer counts are
taken after the copyright filter and before `head(10)`, so they sum to
the number of retained rows, not to the source row count. -/
theorem c7_sum_of_group_counts (t : List LangRecord) (u : List ApodRecord) :
    ((country_concentration t).map (fun row => row.lang_count)).sum =
      t.length ∧
    ((photogCounts (keptRows u)).map (fun row => row.count)).sum =
      (keptRows u).length := by
  constructor
  · have hperm :
        List.Perm
          ((country_concentration t).map (fun row => row.lang_count))
          ((concentration_pre t).map (fun row => row.lang_count)) :=
      (perm_sortByDesc _ _).map _
    rw [hperm.sum_eq]
    simp only [concentration_pre, List.map_map]
    exact sum_group_lengths (fun r => r.country) t
  · have h : (photogCounts (keptRows u)).map (fun row => row.count) =
        (dedupFirst ((keptRows u).map (fun r => r.copyright))).map
          (fun k => ((keptRows u).filter (fun r => r.copyright == k)).length) := by
      simp only [photogCounts, List.map_map]
      rfl
    rw [h]
    exact sum_group_lengths (fun r => r.copyright) (keptRows u)

end TidyTuesdays
